import Mathlib

/-!
Shallow embedding of the remote-reconciliation and synchronization core of
overleaf2gitlab (src/overleaf2gitlab/backup.py, src/overleaf2gitlab/backup/git.py,
src/overleaf2gitlab/backup/operations.py, src/overleaf2gitlab/main.py).

A mirror's git remote configuration is modelled as an association list from
remote names to URLs (the order is git's config order: set-url edits in place,
add appends, remove deletes).  External git commands are modelled by their
effect on that state; command outcomes that depend on the environment
(network, subprocess exit codes) are inputs of the embedded functions.
-/

namespace Overleaf2Gitlab

/-- The remote configuration of one mirror: remote name paired with URL. -/
abbrev Remotes := List (String × String)

/-- First URL stored under a name (git config order), as Python dict lookup. -/
def lookupName : Remotes → String → Option String
  | [], _ => none
  | p :: d, k => if p.1 = k then some p.2 else lookupName d k

/-- Membership test on remote names (Python: name in current_remotes). -/
def containsName (d : Remotes) (k : String) : Bool :=
  d.any (fun p => p.1 = k)

/-- Effect of git remote set-url name url: rewrite the URL stored under the name. -/
def setUrlFn (d : Remotes) (k v : String) : Remotes :=
  d.map (fun p => if p.1 = k then (k, v) else p)

/-- Effect of git remote add name url: append a fresh entry. -/
def addFn (d : Remotes) (k v : String) : Remotes :=
  d ++ [(k, v)]

/-- Effect of git remote remove name: drop every entry under the name. -/
def removeFn (d : Remotes) (k : String) : Remotes :=
  d.filter (fun p => p.1 ≠ k)

/-- Python dict assignment d[k] = v: overwrite in place or append. -/
def dictInsert (d : Remotes) (k v : String) : Remotes :=
  if containsName d k then setUrlFn d k v else addFn d k v

/-- Model of Python str.startswith on the underlying character lists. -/
def strStartsWith (s p : String) : Bool :=
  p.data.isPrefixOf s.data

/-- One git remote configuration command issued by the reconciler. -/
inductive GitCmd where
  | setUrl (name url : String)
  | addRemote (name url : String)
  | removeRemote (name : String)
deriving DecidableEq, Repr

/-- The remote name a command targets. -/
def GitCmd.remoteName : GitCmd → String
  | .setUrl n _ => n
  | .addRemote n _ => n
  | .removeRemote n => n

/-- Expected origin URL (backup.py line 165): https scheme plus project id. -/
def originUrl (overleafId : String) : String :=
  "https://git.overleaf.com/" ++ overleafId

/-- Indexed backup remote name (backup.py line 190). -/
def backupName (i : Nat) : String :=
  "backup" ++ toString i

/-- Backup remote URL (backup.py line 191): ssh scheme plus destination path. -/
def backupUrl (p : String) : String :=
  "ssh://" ++ p

/-- The canonical backup remote entries for a destination-path list, in order. -/
def backupAdds (gitlabPaths : List String) : Remotes :=
  gitlabPaths.enum.map (fun ip => (backupName ip.1, backupUrl ip.2))

/-- Remote Inspector, backup.py get_all_git_remotes (lines 61-87): the listing
command result is an Option (none models a CalledProcessError, mapped to the
empty dict), each name is resolved individually and silently dropped when
resolution fails, empty lines are skipped. -/
def get_all_git_remotes (listing : Option (List String))
    (resolve : String → Option String) : Remotes :=
  match listing with
  | none => []
  | some remoteNames =>
    remoteNames.foldl
      (fun remotes remoteName =>
        if remoteName ≠ "" then
          match resolve remoteName with
          | some url => dictInsert remotes remoteName url
          | none => remotes
        else remotes)
      []

/-- Remote Reconciler, backup.py setup_git_remotes (lines 163-198), success
path: origin gets set-url whenever present (no URL comparison) and add when
absent; then every remote whose name starts with backup is removed; then
backup(i) is added per destination path in order.  Returns the issued command
trace and the final remote state. -/
def setup_git_remotes (overleafId : String) (gitlabPaths : List String)
    (s : Remotes) : List GitCmd × Remotes :=
  let oUrl := originUrl overleafId
  let step1 : List GitCmd × Remotes :=
    if containsName s "origin" then
      ([GitCmd.setUrl "origin" oUrl], setUrlFn s "origin" oUrl)
    else
      ([GitCmd.addRemote "origin" oUrl], addFn s "origin" oUrl)
  let s1 := step1.2
  let toRemove := (s1.map Prod.fst).filter (fun n => strStartsWith n "backup")
  let s2 := toRemove.foldl removeFn s1
  let addList := backupAdds gitlabPaths
  let s3 := addList.foldl (fun t p => addFn t p.1 p.2) s2
  (step1.1 ++ toRemove.map GitCmd.removeRemote
      ++ addList.map (fun p => GitCmd.addRemote p.1 p.2), s3)

namespace Operations

/-- Remote Reconciler variant, backup/operations.py setup_git_remotes
(lines 39-65), success path: origin gets set-url only when its URL differs
and add when absent; each backup(i) is checked against the single remote
snapshot taken at the start (set-url on mismatch, add on absence, no-op on
match); stale backup remotes are never removed. -/
def setup_git_remotes (overleafId : String) (gitlabPaths : List String)
    (s : Remotes) : List GitCmd × Remotes :=
  let oUrl := originUrl overleafId
  let step1 : List GitCmd × Remotes :=
    if containsName s "origin" then
      if lookupName s "origin" ≠ some oUrl then
        ([GitCmd.setUrl "origin" oUrl], setUrlFn s "origin" oUrl)
      else ([], s)
    else
      ([GitCmd.addRemote "origin" oUrl], addFn s "origin" oUrl)
  gitlabPaths.enum.foldl
    (fun acc ip =>
      let nm := backupName ip.1
      let url := backupUrl ip.2
      if containsName s nm then
        if lookupName s nm ≠ some url then
          (acc.1 ++ [GitCmd.setUrl nm url], setUrlFn acc.2 nm url)
        else acc
      else
        (acc.1 ++ [GitCmd.addRemote nm url], addFn acc.2 nm url))
    step1

end Operations

/-- Environment of one sync_repositories run (backup.py lines 204-304): the
outcome of every external command the function may issue. -/
structure SyncEnv where
  gitExists : Bool
  remoteUpdateOk : Bool
  pullMainOk : Bool
  pullMasterOk : Bool
  tagFetchOk : Bool
  remotes : Remotes
  revParseHead : Option String
  branchPushFails : List String
  tagPushFails : List String
deriving DecidableEq, Repr

/-- Observable outcome of one sync_repositories run: the returned boolean plus
the recorded pull branch, the push branch, the attempted and failed backup
remotes and the no-backup warning. -/
structure SyncResult where
  success : Bool
  pulledBranch : Option String
  pushBranch : Option String
  attempted : List String
  failedRemotes : List String
  noBackupWarning : Bool
deriving DecidableEq, Repr

/-- Backup-named remotes of a configuration (backup.py line 261). -/
def backupNamesOf (remotes : Remotes) : List String :=
  (remotes.map Prod.fst).filter (fun n => strStartsWith n "backup")

/-- Strict lexicographic order on character lists by code point, as Python
compares strings. -/
def strLtData : List Char → List Char → Bool
  | [], [] => false
  | [], _ :: _ => true
  | _ :: _, [] => false
  | a :: as, b :: bs =>
    if a.val < b.val then true
    else if b.val < a.val then false
    else strLtData as bs

/-- Boolean linear order on strings used by the model of Python sorted(). -/
def strLeB (a b : String) : Bool :=
  !(strLtData b.data a.data)

/-- Insert into a string list kept sorted by Python code-point order. -/
def insertSorted (x : String) : List String → List String
  | [] => [x]
  | y :: ys => if strLeB x y then x :: y :: ys else y :: insertSorted x ys

/-- Insertion sort modelling Python sorted() on strings. -/
def sortedNames (l : List String) : List String :=
  l.foldr insertSorted []

/-- Whether the push cycle to one backup remote fails (branch push failing
short-circuits the tag push; either failure marks the remote failed). -/
def pushFails (env : SyncEnv) (remote : String) : Bool :=
  env.branchPushFails.contains remote || env.tagPushFails.contains remote

/-- Sync Engine, backup.py sync_repositories (lines 204-304).  Missing mirror
and remote-update failure return failure; the pull tries main then master and
failure of both is fatal; tag fetch failure is caught; the push branch is the
resolved HEAD or the fixed fallback main; backup remotes are pushed in sorted
order, each independently, failures recorded; an empty backup set returns
success with a warning. -/
def sync_repositories (env : SyncEnv) : SyncResult :=
  if !env.gitExists then
    ⟨false, none, none, [], [], false⟩
  else if !env.remoteUpdateOk then
    ⟨false, none, none, [], [], false⟩
  else
    let pulled : Option String :=
      if env.pullMainOk then some "main"
      else if env.pullMasterOk then some "master" else none
    match pulled with
    | none => ⟨false, none, none, [], [], false⟩
    | some b =>
      let backups := backupNamesOf env.remotes
      if backups.isEmpty then
        ⟨true, some b, none, [], [], true⟩
      else
        let currentBranch := env.revParseHead.getD "main"
        let order := sortedNames backups
        ⟨true, some b, some currentBranch, order,
          order.filter (fun r => pushFails env r), false⟩

/-- Commands of a trace that target the origin remote. -/
def originCmds (trace : List GitCmd) : List GitCmd :=
  trace.filter (fun c => c.remoteName = "origin")

/-- Net state effect of the origin step of backup.py setup_git_remotes
(lines 168-177): set-url when present, add when absent. -/
def originStep (overleafId : String) (s : Remotes) : Remotes :=
  if containsName s "origin" then setUrlFn s "origin" (originUrl overleafId)
  else addFn s "origin" (originUrl overleafId)

/-- Entries whose remote name does not start with backup. -/
def nonBackupPart (s : Remotes) : Remotes :=
  s.filter (fun p => !(strStartsWith p.1 "backup"))

/-- Config Validator, backup.py check_cache_overleaf_git_config_valid
(lines 89-147): mirror must exist, origin must be present with the expected
URL, every backup(i) must be present with ssh:// plus the path at index i;
unexpected remotes only produce a warning. -/
def check_cache_overleaf_git_config_valid (overleafId : String)
    (gitlabPaths : List String) (gitExists : Bool) (remotes : Remotes) : Bool :=
  if !gitExists then false
  else if !containsName remotes "origin" then false
  else if lookupName remotes "origin" ≠ some (originUrl overleafId) then false
  else
    gitlabPaths.enum.all (fun ip =>
      containsName remotes (backupName ip.1)
        && lookupName remotes (backupName ip.1) = some (backupUrl ip.2))

/-- Environment of one per-project backup workflow run: outcomes of the
provisioning commands, of the reconciliation commands, of every sync command
and of the optional cleanup, plus the pre-existing remote configuration. -/
structure ProjEnv where
  gitExists : Bool
  gitInitOk : Bool
  credentialConfigOk : Bool
  remoteCmdsOk : Bool
  preRemotes : Remotes
  remoteUpdateOk : Bool
  pullMainOk : Bool
  pullMasterOk : Bool
  tagFetchOk : Bool
  revParseHead : Option String
  branchPushFails : List String
  tagPushFails : List String
  clean : Bool
  cleanupOk : Bool
deriving DecidableEq, Repr

/-- Mirror Provisioner, backup.py mk_cache_overleaf_git_dir (lines 20-41):
the git init and git config subprocesses run with check=True and no handler,
so a failing command raises CalledProcessError (modelled as Except.error). -/
def mk_cache_overleaf_git_dir_run (e : ProjEnv) : Except Unit Unit :=
  if e.gitExists then Except.ok ()
  else if !e.gitInitOk then Except.error ()
  else if !e.credentialConfigOk then Except.error ()
  else Except.ok ()

/-- backup.py setup_git_remotes (lines 149-202) as actually run: the
provisioning call at line 161 sits before the try block, so its exception
escapes; remote commands inside the try are converted to a False return.
Returns the boolean outcome and the resulting remote state. -/
def setup_git_remotes_run (overleafId : String) (gitlabPaths : List String)
    (e : ProjEnv) : Except Unit (Bool × Remotes) := do
  let _ ← mk_cache_overleaf_git_dir_run e
  let s0 : Remotes := if e.gitExists then e.preRemotes else []
  if e.remoteCmdsOk then
    Except.ok (true, (setup_git_remotes overleafId gitlabPaths s0).2)
  else
    -- on a mid-reconciliation command failure the caller aborts, so the
    -- exact partial state is never observed downstream
    Except.ok (false, s0)

/-- Assemble the sync environment seen after a successful reconciliation. -/
def toSyncEnv (e : ProjEnv) (remotes : Remotes) : SyncEnv :=
  ⟨true, e.remoteUpdateOk, e.pullMainOk, e.pullMasterOk, e.tagFetchOk,
    remotes, e.revParseHead, e.branchPushFails, e.tagPushFails⟩

/-- Backup Orchestrator, backup.py backup_overleaf_project (lines 306-341):
setup, then validation, then sync, each False aborting with False; the
cleanup rm runs with check=True and no handler, so its failure raises. -/
def backup_overleaf_project_run (overleafId : String)
    (gitlabPaths : List String) (e : ProjEnv) : Except Unit Bool := do
  let (setupOk, remotes1) ← setup_git_remotes_run overleafId gitlabPaths e
  if !setupOk then return false
  if !check_cache_overleaf_git_config_valid overleafId gitlabPaths true remotes1 then
    return false
  if !(sync_repositories (toSyncEnv e remotes1)).success then return false
  if e.clean then
    if e.cleanupOk then return true else Except.error ()
  else
    return true

/-- Bulk mode, main.py backup_all_projects (lines 71-84): sequential loop
accumulating a success count over the total count; the loop body has no
exception handler, so an escaping exception aborts the remaining projects.
Returns (successes, projects processed). -/
def backup_all_projects_run :
    List (String × List String × ProjEnv) → Except Unit (Nat × Nat)
  | [] => Except.ok (0, 0)
  | (overleafId, gitlabPaths, e) :: rest => do
    let ok ← backup_overleaf_project_run overleafId gitlabPaths e
    let (s, t) ← backup_all_projects_run rest
    Except.ok (if ok then s + 1 else s, t + 1)

end Overleaf2Gitlab

namespace Overleaf2Gitlab

/-- Evaluation of the returned success flag of the Sync Engine. -/
theorem sync_success_eq (env : SyncEnv) :
    (sync_repositories env).success =
      (env.gitExists && env.remoteUpdateOk && (env.pullMainOk || env.pullMasterOk)) := by
  obtain ⟨ge, ru, pm, pms, tf, rs, rp, bpf, tpf⟩ := env
  cases ge <;> cases ru <;> cases pm <;> cases pms <;>
    first
      | rfl
      | (show SyncResult.success (if (backupNamesOf rs).isEmpty then _ else _) = _
         split <;> rfl)

/-- Evaluation of the recorded pulled branch of the Sync Engine. -/
theorem sync_pulledBranch_eq (env : SyncEnv) :
    (sync_repositories env).pulledBranch =
      (if env.gitExists && env.remoteUpdateOk then
        (if env.pullMainOk then some "main"
         else if env.pullMasterOk then some "master" else none)
      else none) := by
  obtain ⟨ge, ru, pm, pms, tf, rs, rp, bpf, tpf⟩ := env
  cases ge <;> cases ru <;> cases pm <;> cases pms <;>
    first
      | rfl
      | (show SyncResult.pulledBranch (if (backupNamesOf rs).isEmpty then _ else _) = _
         split <;> rfl)

/-- When both pull candidates fail the Sync Engine returns the failure record
with no pushes attempted, whatever the rest of the environment. -/
theorem sync_pullFailed_eq (env : SyncEnv)
    (h1 : env.pullMainOk = false) (h2 : env.pullMasterOk = false) :
    sync_repositories env = ⟨false, none, none, [], [], false⟩ := by
  obtain ⟨ge, ru, pm, pms, tf, rs, rp, bpf, tpf⟩ := env
  cases h1; cases h2
  cases ge <;> cases ru <;> rfl

/-- Fan-out evaluation: with an existing mirror, a successful remote update, a
successful pull and a nonempty backup set, the Sync Engine attempts all backup
remotes in sorted order, records exactly the failing ones, and succeeds. -/
theorem sync_fanout_eq (env : SyncEnv) (hex : env.gitExists = true)
    (hru : env.remoteUpdateOk = true)
    (hpull : env.pullMainOk = true ∨ env.pullMasterOk = true)
    (hne : backupNamesOf env.remotes ≠ []) :
    (sync_repositories env).attempted = sortedNames (backupNamesOf env.remotes) ∧
    (sync_repositories env).failedRemotes =
      (sortedNames (backupNamesOf env.remotes)).filter (fun r => pushFails env r) ∧
    (sync_repositories env).success = true ∧
    (sync_repositories env).noBackupWarning = false := by
  obtain ⟨ge, ru, pm, pms, tf, rs, rp, bpf, tpf⟩ := env
  cases hex; cases hru
  have hb : (backupNamesOf rs).isEmpty = false := by
    cases hh : (backupNamesOf rs).isEmpty
    · rfl
    · exact absurd (List.isEmpty_iff.mp hh) hne
  rcases hpull with h | h
  · cases h
    simp only [sync_repositories, Bool.not_true, Bool.bool_iff_false, hb,
      Bool.false_eq_true, if_false, if_true]
    refine ⟨?_, ?_, ?_, ?_⟩ <;> first | rfl | trivial
  · cases h
    cases pm <;>
    · simp only [sync_repositories, Bool.not_true, hb, Bool.false_eq_true,
        if_false, if_true]
      refine ⟨?_, ?_, ?_, ?_⟩ <;> first | rfl | trivial

/-- In the empty-backup case after a successful pull the Sync Engine still
succeeds and records the warning. -/
theorem sync_noBackups_eq (env : SyncEnv) (hex : env.gitExists = true)
    (hru : env.remoteUpdateOk = true)
    (hpull : env.pullMainOk = true ∨ env.pullMasterOk = true)
    (hemp : backupNamesOf env.remotes = []) :
    (sync_repositories env).success = true ∧
    (sync_repositories env).noBackupWarning = true := by
  obtain ⟨ge, ru, pm, pms, tf, rs, rp, bpf, tpf⟩ := env
  cases hex; cases hru
  have hb : (backupNamesOf rs).isEmpty = true := by
    simp [List.isEmpty_iff]; exact hemp
  rcases hpull with h | h
  · cases h
    simp only [sync_repositories, Bool.not_true, hb, if_true, if_false]
    exact ⟨rfl, rfl⟩
  · cases h
    cases pm <;>
    · simp only [sync_repositories, Bool.not_true, hb, if_true, if_false]
      exact ⟨rfl, rfl⟩

end Overleaf2Gitlab

namespace Overleaf2Gitlab

/-- C1: on an existing mirror, sync_repositories succeeds if and only if the
pull from origin succeeded (a branch was pulled); backup push failures never
flip a successful result, and an empty backup-named remote set still yields
success, reported with a warning. -/
theorem C1_sync_success_iff_pull (env : SyncEnv) (hex : env.gitExists = true) :
    ((sync_repositories env).success = true ↔
      ((sync_repositories env).pulledBranch).isSome = true) ∧
    (env.remoteUpdateOk = true →
      (env.pullMainOk = true ∨ env.pullMasterOk = true) →
      backupNamesOf env.remotes = [] →
      (sync_repositories env).success = true ∧
      (sync_repositories env).noBackupWarning = true) := by
  constructor
  · rw [sync_success_eq, sync_pulledBranch_eq, hex]
    cases env.remoteUpdateOk <;> cases env.pullMainOk <;> cases env.pullMasterOk <;> simp
  · intro hru hpull hemp
    exact sync_noBackups_eq env hex hru hpull hemp

/-- Witness for C1 at a concrete environment with an empty backup set. -/
theorem C1_witness :
    ((sync_repositories ⟨true, true, true, false, true, [("origin", "u")], none, [], []⟩).success = true ↔
      ((sync_repositories ⟨true, true, true, false, true, [("origin", "u")], none, [], []⟩).pulledBranch).isSome = true) ∧
    (sync_repositories ⟨true, true, true, false, true, [("origin", "u")], none, [], []⟩).success = true ∧
    (sync_repositories ⟨true, true, true, false, true, [("origin", "u")], none, [], []⟩).noBackupWarning = true := by
  have h := C1_sync_success_iff_pull
    ⟨true, true, true, false, true, [("origin", "u")], none, [], []⟩ rfl
  exact ⟨h.1, h.2 rfl (Or.inl rfl) (by decide)⟩

/-- C2: with an existing mirror and a successful remote update, if the main
pull fails and the master pull succeeds the sync succeeds with master recorded
as the pulled branch; if both fail the sync fails and attempts zero pushes. -/
theorem C2_branch_fallback (env : SyncEnv) (hex : env.gitExists = true)
    (hru : env.remoteUpdateOk = true) :
    (env.pullMainOk = false → env.pullMasterOk = true →
      (sync_repositories env).success = true ∧
      (sync_repositories env).pulledBranch = some "master") ∧
    (env.pullMainOk = false → env.pullMasterOk = false →
      (sync_repositories env).success = false ∧
      (sync_repositories env).attempted = []) := by
  constructor
  · intro h1 h2
    constructor
    · rw [sync_success_eq, hex, hru, h1, h2]; rfl
    · rw [sync_pulledBranch_eq, hex, hru, h1, h2]; rfl
  · intro h1 h2
    rw [sync_pullFailed_eq env h1 h2]
    exact ⟨rfl, rfl⟩

/-- Witness for C2 at concrete environments exercising both conjuncts. -/
theorem C2_witness :
    ((sync_repositories ⟨true, true, false, true, true, [("backup0", "b")], none, [], []⟩).success = true ∧
      (sync_repositories ⟨true, true, false, true, true, [("backup0", "b")], none, [], []⟩).pulledBranch = some "master") ∧
    ((sync_repositories ⟨true, true, false, false, true, [("backup0", "b")], none, [], []⟩).success = false ∧
      (sync_repositories ⟨true, true, false, false, true, [("backup0", "b")], none, [], []⟩).attempted = []) := by
  exact ⟨(C2_branch_fallback ⟨true, true, false, true, true, [("backup0", "b")], none, [], []⟩
      rfl rfl).1 rfl rfl,
    (C2_branch_fallback ⟨true, true, false, false, true, [("backup0", "b")], none, [], []⟩
      rfl rfl).2 rfl rfl⟩

/-- C3: with three backup remotes backup0, backup1, backup2 of which backup1
fails its push, the Sync Engine still attempts all three in order, records
backup1 as failed, records the true outcome of backup0 and backup2, and the
overall result stays success since the pull succeeded. -/
theorem C3_partial_failure_isolation (env : SyncEnv) (hex : env.gitExists = true)
    (hru : env.remoteUpdateOk = true)
    (hpull : env.pullMainOk = true ∨ env.pullMasterOk = true)
    (hb : sortedNames (backupNamesOf env.remotes) = ["backup0", "backup1", "backup2"])
    (hfail : pushFails env "backup1" = true) :
    (sync_repositories env).attempted = ["backup0", "backup1", "backup2"] ∧
    "backup1" ∈ (sync_repositories env).failedRemotes ∧
    ("backup0" ∈ (sync_repositories env).failedRemotes ↔ pushFails env "backup0" = true) ∧
    ("backup2" ∈ (sync_repositories env).failedRemotes ↔ pushFails env "backup2" = true) ∧
    (sync_repositories env).success = true := by
  have hne : backupNamesOf env.remotes ≠ [] := by
    intro h
    rw [h] at hb
    exact absurd hb (by decide)
  obtain ⟨ha, hf, hs, _⟩ := sync_fanout_eq env hex hru hpull hne
  rw [ha, hb] at *
  rw [hf, hb]
  refine ⟨rfl, ?_, ?_, ?_, hs⟩
  · rw [List.mem_filter]
    exact ⟨by decide, hfail⟩
  · rw [List.mem_filter]
    simp
  · rw [List.mem_filter]
    simp

/-- Witness for C3 at a concrete three-backup environment where the backup1
branch push fails and backup2 additionally fails its tag push. -/
theorem C3_witness :
    (sync_repositories ⟨true, true, true, false, true,
        [("origin", "u"), ("backup2", "b2"), ("backup0", "b0"), ("backup1", "b1")],
        some "main", ["backup1"], ["backup2"]⟩).attempted = ["backup0", "backup1", "backup2"] ∧
    "backup1" ∈ (sync_repositories ⟨true, true, true, false, true,
        [("origin", "u"), ("backup2", "b2"), ("backup0", "b0"), ("backup1", "b1")],
        some "main", ["backup1"], ["backup2"]⟩).failedRemotes ∧
    ("backup0" ∈ (sync_repositories ⟨true, true, true, false, true,
        [("origin", "u"), ("backup2", "b2"), ("backup0", "b0"), ("backup1", "b1")],
        some "main", ["backup1"], ["backup2"]⟩).failedRemotes ↔
      pushFails ⟨true, true, true, false, true,
        [("origin", "u"), ("backup2", "b2"), ("backup0", "b0"), ("backup1", "b1")],
        some "main", ["backup1"], ["backup2"]⟩ "backup0" = true) ∧
    ("backup2" ∈ (sync_repositories ⟨true, true, true, false, true,
        [("origin", "u"), ("backup2", "b2"), ("backup0", "b0"), ("backup1", "b1")],
        some "main", ["backup1"], ["backup2"]⟩).failedRemotes ↔
      pushFails ⟨true, true, true, false, true,
        [("origin", "u"), ("backup2", "b2"), ("backup0", "b0"), ("backup1", "b1")],
        some "main", ["backup1"], ["backup2"]⟩ "backup2" = true) ∧
    (sync_repositories ⟨true, true, true, false, true,
        [("origin", "u"), ("backup2", "b2"), ("backup0", "b0"), ("backup1", "b1")],
        some "main", ["backup1"], ["backup2"]⟩).success = true := by
  exact C3_partial_failure_isolation
    ⟨true, true, true, false, true,
      [("origin", "u"), ("backup2", "b2"), ("backup0", "b0"), ("backup1", "b1")],
      some "main", ["backup1"], ["backup2"]⟩
    rfl rfl (Or.inl rfl) (by decide) (by decide)

/-- C4 counterexample: two sync environments identical except for the outcome
of the initial git remote update step, both with a main pull that would
succeed; one run succeeds and the other fails, so a step other than the pull
flips the Sync Engine to failure, refuting the claim that pull failure is the
single fatal condition of the component. -/
theorem C4_counterexample :
    (sync_repositories ⟨true, true, true, true, true, [("backup0", "b")], none, [], []⟩).success = true ∧
    (sync_repositories ⟨true, false, true, true, true, [("backup0", "b")], none, [], []⟩).success = false := by
  decide

/-- C4 amended: once the mirror-existence check and the initial git remote
update step have passed, failure of the pull across both branch candidates is
the single fatal condition: the result is failure exactly when both pulls
fail, whatever the tag fetch, the branch-name resolution and the individual
backup pushes do. -/
theorem C4_single_fatal_amended (env : SyncEnv) (hex : env.gitExists = true)
    (hru : env.remoteUpdateOk = true) :
    (sync_repositories env).success = false ↔
      (env.pullMainOk = false ∧ env.pullMasterOk = false) := by
  rw [sync_success_eq, hex, hru]
  cases env.pullMainOk <;> cases env.pullMasterOk <;> simp

/-- Witness for the amended C4 at a concrete failing-pull environment. -/
theorem C4_witness :
    (sync_repositories ⟨true, true, false, false, true, [("backup0", "b")], some "main", [], []⟩).success = false ↔
      (false = false ∧ false = false) :=
  C4_single_fatal_amended
    ⟨true, true, false, false, true, [("backup0", "b")], some "main", [], []⟩ rfl rfl

end Overleaf2Gitlab

namespace Overleaf2Gitlab

/-- Folding git remote remove over a list of names filters out those names. -/
theorem foldl_removeFn (L : List String) (t : Remotes) :
    L.foldl removeFn t = t.filter (fun p => decide (p.1 ∉ L)) := by
  induction L generalizing t with
  | nil => simp
  | cons n L ih =>
    rw [List.foldl_cons, ih, removeFn, List.filter_filter]
    apply List.filter_congr
    intro p _
    simp only [List.mem_cons, not_or]
    cases h1 : decide (p.1 = n) <;> cases h2 : decide (p.1 ∈ L) <;> simp_all

/-- Folding git remote add over a list of entries appends them in order. -/
theorem foldl_addFn (L t : Remotes) :
    L.foldl (fun a p => addFn a p.1 p.2) t = t ++ L := by
  induction L generalizing t with
  | nil => simp
  | cons x L ih =>
    rw [List.foldl_cons, ih, addFn]
    simp

/-- Removing exactly the backup-named remotes of a state keeps its non-backup
part. -/
theorem removeAll_backups (t : Remotes) :
    ((t.map Prod.fst).filter (fun n => strStartsWith n "backup")).foldl removeFn t
      = nonBackupPart t := by
  rw [foldl_removeFn, nonBackupPart]
  apply List.filter_congr
  intro p hp
  have hmem : p.1 ∈ t.map Prod.fst := List.mem_map.mpr ⟨p, hp, rfl⟩
  cases hb : strStartsWith p.1 "backup"
  · simp [List.mem_filter, hb]
  · simp [List.mem_filter, hmem, hb]

/-- Shape of the state produced by the canonical reconciler: the non-backup
part of the origin-reconciled state followed by the fresh backup entries. -/
theorem setup_git_remotes_state (overleafId : String) (gitlabPaths : List String)
    (s : Remotes) :
    (setup_git_remotes overleafId gitlabPaths s).2 =
      nonBackupPart (originStep overleafId s) ++ backupAdds gitlabPaths := by
  unfold setup_git_remotes originStep
  cases h : containsName s "origin" <;>
    simp only [h, Bool.false_eq_true, if_false, if_true] <;>
    rw [removeAll_backups, foldl_addFn]

/-- Every fresh backup entry has a backup-prefixed name. -/
theorem backupAdds_mem_startsWith (gitlabPaths : List String) :
    ∀ p ∈ backupAdds gitlabPaths, strStartsWith p.1 "backup" = true := by
  intro p hp
  obtain ⟨ip, _, rfl⟩ := List.mem_map.mp hp
  show strStartsWith (backupName ip.1) "backup" = true
  unfold strStartsWith backupName
  have hdata : ("backup" ++ toString ip.1).data = "backup".data ++ (toString ip.1).data := rfl
  rw [hdata]
  exact List.isPrefixOf_iff_prefix.mpr (List.prefix_append _ _)

/-- No fresh backup entry is named origin. -/
theorem backupAdds_ne_origin (gitlabPaths : List String) :
    ∀ p ∈ backupAdds gitlabPaths, p.1 ≠ "origin" := by
  intro p hp h
  have hs := backupAdds_mem_startsWith gitlabPaths p hp
  rw [h] at hs
  exact absurd hs (by decide)

/-- The non-backup part of the fresh backup entries is empty. -/
theorem nonBackupPart_backupAdds (gitlabPaths : List String) :
    nonBackupPart (backupAdds gitlabPaths) = [] := by
  rw [nonBackupPart]
  apply List.filter_eq_nil_iff.mpr
  intro p hp
  simp [backupAdds_mem_startsWith gitlabPaths p hp]

/-- Filtering the fresh backup entries for backup-prefixed names keeps all. -/
theorem filter_backups_backupAdds (gitlabPaths : List String) :
    (backupAdds gitlabPaths).filter (fun p => strStartsWith p.1 "backup")
      = backupAdds gitlabPaths :=
  List.filter_eq_self.mpr (backupAdds_mem_startsWith gitlabPaths)

/-- The non-backup part is a projection: applying it twice changes nothing. -/
theorem nonBackupPart_idem (t : Remotes) :
    nonBackupPart (nonBackupPart t) = nonBackupPart t := by
  unfold nonBackupPart
  rw [List.filter_filter]
  apply List.filter_congr
  intro p _
  cases strStartsWith p.1 "backup" <;> simp

/-- The backup-prefixed entries of a non-backup part are empty. -/
theorem filter_backups_nonBackupPart (t : Remotes) :
    (nonBackupPart t).filter (fun p => strStartsWith p.1 "backup") = [] := by
  unfold nonBackupPart
  rw [List.filter_filter]
  apply List.filter_eq_nil_iff.mpr
  intro p _
  cases strStartsWith p.1 "backup" <;> simp

/-- After the canonical reconciler the backup-prefixed entries are exactly the
fresh backup entries, in order. -/
theorem backupPart_setup (overleafId : String) (gitlabPaths : List String)
    (s : Remotes) :
    ((setup_git_remotes overleafId gitlabPaths s).2).filter
        (fun p => strStartsWith p.1 "backup") = backupAdds gitlabPaths := by
  rw [setup_git_remotes_state, List.filter_append, filter_backups_nonBackupPart,
    filter_backups_backupAdds, List.nil_append]

end Overleaf2Gitlab

namespace Overleaf2Gitlab

/-- set-url never changes which names are present. -/
theorem containsName_setUrlFn (d : Remotes) (k v m : String) :
    containsName (setUrlFn d k v) m = containsName d m := by
  induction d with
  | nil => rfl
  | cons p d ih =>
    unfold containsName setUrlFn at *
    simp only [List.map_cons, List.any_cons, ih]
    by_cases h : p.1 = k <;> simp [h]

/-- Name membership distributes over concatenation of states. -/
theorem containsName_append (a b : Remotes) (k : String) :
    containsName (a ++ b) k = (containsName a k || containsName b k) := by
  unfold containsName
  exact List.any_append

/-- A state with no entry under a name has only entries under other names. -/
theorem containsName_eq_false_iff (d : Remotes) (k : String) :
    containsName d k = false ↔ ∀ p ∈ d, p.1 ≠ k := by
  unfold containsName
  simp

/-- The origin step always leaves an entry named origin. -/
theorem containsName_originStep (overleafId : String) (s : Remotes) :
    containsName (originStep overleafId s) "origin" = true := by
  unfold originStep
  cases h : containsName s "origin"
  · simp only [Bool.false_eq_true, if_false, addFn, containsName_append]
    simp [containsName]
  · simp only [if_true, containsName_setUrlFn]
    exact h

/-- Every origin-named entry after the origin step carries the expected URL. -/
theorem originStep_originUrl (overleafId : String) (s : Remotes) :
    ∀ p ∈ originStep overleafId s, p.1 = "origin" → p.2 = originUrl overleafId := by
  unfold originStep
  cases h : containsName s "origin" <;> intro p hp hk
  · simp only [Bool.false_eq_true, if_false, addFn] at hp
    rcases List.mem_append.mp hp with h1 | h1
    · exact absurd hk ((containsName_eq_false_iff s "origin").mp h p h1)
    · rw [List.mem_singleton.mp h1]
  · simp only [if_true, setUrlFn] at hp
    obtain ⟨q, _, rfl⟩ := List.mem_map.mp hp
    by_cases hq : q.1 = "origin"
    · simp [hq]
    · rw [if_neg hq] at hk
      exact absurd hk hq

/-- set-url is the identity when every entry under the name already carries
the URL. -/
theorem setUrlFn_eq_self (d : Remotes) (k v : String)
    (h : ∀ p ∈ d, p.1 = k → p.2 = v) : setUrlFn d k v = d := by
  induction d with
  | nil => rfl
  | cons p d ih =>
    have htail : setUrlFn d k v = d := ih (fun q hq => h q (List.mem_cons_of_mem p hq))
    unfold setUrlFn at htail ⊢
    simp only [List.map_cons, htail]
    by_cases hp : p.1 = k
    · have hv : p.2 = v := h p (List.mem_cons_self p d) hp
      rw [if_pos hp, ← hp, ← hv]
    · rw [if_neg hp]

/-- Entries of the reconciled state named origin all carry the expected URL. -/
theorem setup_state_origin_entries (overleafId : String) (gitlabPaths : List String)
    (s : Remotes) :
    ∀ p ∈ (setup_git_remotes overleafId gitlabPaths s).2,
      p.1 = "origin" → p.2 = originUrl overleafId := by
  rw [setup_git_remotes_state]
  intro p hp hk
  rcases List.mem_append.mp hp with h1 | h1
  · exact originStep_originUrl overleafId s p (List.mem_of_mem_filter h1) hk
  · exact absurd hk (backupAdds_ne_origin gitlabPaths p h1)

/-- The reconciled state contains an entry named origin. -/
theorem setup_state_contains_origin (overleafId : String) (gitlabPaths : List String)
    (s : Remotes) :
    containsName (setup_git_remotes overleafId gitlabPaths s).2 "origin" = true := by
  rw [setup_git_remotes_state, containsName_append]
  have h1 : containsName (nonBackupPart (originStep overleafId s)) "origin" = true := by
    have h2 := containsName_originStep overleafId s
    unfold containsName at h2 ⊢
    unfold nonBackupPart
    rw [List.any_filter]
    obtain ⟨p, hp, he⟩ := List.any_eq_true.mp h2
    apply List.any_eq_true.mpr
    refine ⟨p, hp, ?_⟩
    have hk : p.1 = "origin" := of_decide_eq_true he
    rw [hk]
    decide
  rw [h1, Bool.true_or]

end Overleaf2Gitlab

namespace Overleaf2Gitlab

/-- The non-backup part distributes over concatenation. -/
theorem nonBackupPart_append (a b : Remotes) :
    nonBackupPart (a ++ b) = nonBackupPart a ++ nonBackupPart b := by
  unfold nonBackupPart
  exact List.filter_append a b

/-- Lookup returns the shared URL when every entry under the name carries it
and the name is present. -/
theorem lookupName_eq_some_of (d : Remotes) (k v : String)
    (hall : ∀ p ∈ d, p.1 = k → p.2 = v) (hc : containsName d k = true) :
    lookupName d k = some v := by
  induction d with
  | nil => cases hc
  | cons p d ih =>
    unfold lookupName
    by_cases hp : p.1 = k
    · rw [if_pos hp, hall p (List.mem_cons_self p d) hp]
    · rw [if_neg hp]
      apply ih (fun q hq => hall q (List.mem_cons_of_mem p hq))
      unfold containsName at hc ⊢
      rw [List.any_cons] at hc
      simp only [hp] at hc
      simpa using hc

/-- C7: running the canonical reconciler twice with the same project id and
the same destination paths leaves the remote configuration of the first run
unchanged: reconciliation is idempotent on the mirror state. -/
theorem C7_reconciler_idempotent (overleafId : String) (gitlabPaths : List String)
    (s : Remotes) :
    (setup_git_remotes overleafId gitlabPaths
        ((setup_git_remotes overleafId gitlabPaths s).2)).2
      = (setup_git_remotes overleafId gitlabPaths s).2 := by
  set R := (setup_git_remotes overleafId gitlabPaths s).2 with hR
  have hc : containsName R "origin" = true :=
    setup_state_contains_origin overleafId gitlabPaths s
  have hall : ∀ p ∈ R, p.1 = "origin" → p.2 = originUrl overleafId :=
    setup_state_origin_entries overleafId gitlabPaths s
  rw [setup_git_remotes_state overleafId gitlabPaths R]
  rw [originStep]
  simp only [hc, if_true]
  rw [setUrlFn_eq_self R "origin" (originUrl overleafId) hall]
  rw [hR, setup_git_remotes_state overleafId gitlabPaths s]
  rw [nonBackupPart_append, nonBackupPart_idem, nonBackupPart_backupAdds,
    List.append_nil]

/-- Length of the canonical backup entry list. -/
theorem backupAdds_length (gitlabPaths : List String) :
    (backupAdds gitlabPaths).length = gitlabPaths.length := by
  simp [backupAdds]

/-- Entry i of the canonical backup entry list is backup(i) mapped to
ssh:// plus the path at index i. -/
theorem backupAdds_get (gitlabPaths : List String) (i : Nat)
    (h : i < gitlabPaths.length) :
    (backupAdds gitlabPaths).get ⟨i, lt_of_lt_of_eq h (backupAdds_length gitlabPaths).symm⟩
      = (backupName i, backupUrl (gitlabPaths.get ⟨i, h⟩)) := by
  simp [backupAdds]

/-- C6: after reconciling with a destination list and then with a permutation
of it, the surviving backup-prefixed remotes are exactly the fresh entries of
the current (permuted) order, and entry i of that canonical list is backup(i)
mapped to ssh:// plus the path at index i of the current list; no entry of
the prior order survives. -/
theorem C6_reorder_safety (overleafId : String) (paths1 paths2 : List String)
    (s : Remotes) (hperm : paths1.Perm paths2) :
    (((setup_git_remotes overleafId paths2
          ((setup_git_remotes overleafId paths1 s).2)).2).filter
        (fun p => strStartsWith p.1 "backup") = backupAdds paths2) ∧
    ∀ i (h : i < paths2.length),
      (backupAdds paths2).get ⟨i, lt_of_lt_of_eq h (backupAdds_length paths2).symm⟩
        = (backupName i, backupUrl (paths2.get ⟨i, h⟩)) := by
  constructor
  · exact backupPart_setup overleafId paths2 ((setup_git_remotes overleafId paths1 s).2)
  · intro i h
    exact backupAdds_get paths2 i h

/-- Witness for C6 on a two-element destination list and its swap. -/
theorem C6_witness :
    ((setup_git_remotes "abc" ["gl/b/r2.git", "gl/a/r1.git"]
          ((setup_git_remotes "abc" ["gl/a/r1.git", "gl/b/r2.git"] []).2)).2).filter
        (fun p => strStartsWith p.1 "backup")
      = backupAdds ["gl/b/r2.git", "gl/a/r1.git"] :=
  (C6_reorder_safety "abc" ["gl/a/r1.git", "gl/b/r2.git"] ["gl/b/r2.git", "gl/a/r1.git"]
    [] (by decide)).1

end Overleaf2Gitlab

namespace Overleaf2Gitlab

/-- Filtering by a predicate that rejects every entry under a name commutes
with set-url on that name. -/
theorem filter_setUrlFn_of_none (d : Remotes) (k v : String)
    (Q : String × String → Bool) (hk : Q (k, v) = false)
    (hall : ∀ p, p.1 = k → Q p = false) :
    (setUrlFn d k v).filter Q = d.filter Q := by
  induction d with
  | nil => rfl
  | cons p d ih =>
    unfold setUrlFn at ih ⊢
    simp only [List.map_cons, List.filter_cons]
    by_cases hp : p.1 = k
    · rw [if_pos hp]
      simp only [hk, hall p hp, Bool.false_eq_true, if_false]
      exact ih
    · rw [if_neg hp, ih]

/-- The origin step preserves the entries rejected under the origin name. -/
theorem filter_originStep_of_none (overleafId : String) (s : Remotes)
    (Q : String × String → Bool)
    (hk : Q ("origin", originUrl overleafId) = false)
    (hall : ∀ p, p.1 = "origin" → Q p = false) :
    (originStep overleafId s).filter Q = s.filter Q := by
  unfold originStep
  cases h : containsName s "origin"
  · simp only [Bool.false_eq_true, if_false, addFn, List.filter_append]
    simp only [List.filter_cons, List.filter_nil, hk, Bool.false_eq_true, if_false,
      List.append_nil]
  · simp only [if_true]
    exact filter_setUrlFn_of_none s "origin" (originUrl overleafId) Q hk hall

/-- C10: after the canonical reconciler, origin resolves to the expected
https URL, the backup-prefixed entries are exactly backup(i) mapped to
ssh:// plus the path at index i (so every pre-existing backup-prefixed
remote, of whatever shape, is gone), and the remotes whose names do not
start with backup and are not origin are exactly those of the prior state. -/
theorem C10_reconciled_invariant (overleafId : String) (gitlabPaths : List String)
    (s : Remotes) :
    lookupName (setup_git_remotes overleafId gitlabPaths s).2 "origin"
        = some (originUrl overleafId) ∧
    ((setup_git_remotes overleafId gitlabPaths s).2).filter
        (fun p => strStartsWith p.1 "backup") = backupAdds gitlabPaths ∧
    ((setup_git_remotes overleafId gitlabPaths s).2).filter
        (fun p => !(strStartsWith p.1 "backup") && p.1 ≠ "origin")
      = s.filter (fun p => !(strStartsWith p.1 "backup") && p.1 ≠ "origin") := by
  refine ⟨?_, backupPart_setup overleafId gitlabPaths s, ?_⟩
  · exact lookupName_eq_some_of _ "origin" (originUrl overleafId)
      (setup_state_origin_entries overleafId gitlabPaths s)
      (setup_state_contains_origin overleafId gitlabPaths s)
  · rw [setup_git_remotes_state, List.filter_append]
    have hA : (backupAdds gitlabPaths).filter
        (fun p => !(strStartsWith p.1 "backup") && p.1 ≠ "origin") = [] := by
      apply List.filter_eq_nil_iff.mpr
      intro p hp
      simp [backupAdds_mem_startsWith gitlabPaths p hp]
    rw [hA, List.append_nil]
    unfold nonBackupPart
    rw [List.filter_filter]
    have hcongr : ∀ p : String × String,
        ((!(strStartsWith p.1 "backup") && decide (p.1 ≠ "origin"))
            && !(strStartsWith p.1 "backup"))
          = (!(strStartsWith p.1 "backup") && decide (p.1 ≠ "origin")) := by
      intro p
      cases strStartsWith p.1 "backup" <;> simp
    rw [List.filter_congr (fun p _ => hcongr p)]
    apply filter_originStep_of_none
    · simp
    · intro p hp
      simp [hp]

end Overleaf2Gitlab

namespace Overleaf2Gitlab

/-- Each indexed backup name is backup-prefixed. -/
theorem strStartsWith_backupName (i : Nat) :
    strStartsWith (backupName i) "backup" = true := by
  unfold strStartsWith backupName
  have hdata : ("backup" ++ toString i).data = "backup".data ++ (toString i).data := rfl
  rw [hdata]
  exact List.isPrefixOf_iff_prefix.mpr (List.prefix_append _ _)

/-- A backup-prefixed name is never origin. -/
theorem startsWith_backup_ne_origin (n : String)
    (h : strStartsWith n "backup" = true) : n ≠ "origin" := by
  intro he
  rw [he] at h
  exact absurd h (by decide)

/-- No indexed backup name is origin. -/
theorem backupName_ne_origin (i : Nat) : backupName i ≠ "origin" :=
  startsWith_backup_ne_origin (backupName i) (strStartsWith_backupName i)

/-- The origin-targeted commands of the canonical reconciler trace: exactly
one set-url when origin is present, exactly one add when absent. -/
theorem originCmds_setup (overleafId : String) (gitlabPaths : List String)
    (s : Remotes) :
    originCmds (setup_git_remotes overleafId gitlabPaths s).1 =
      (if containsName s "origin" then [GitCmd.setUrl "origin" (originUrl overleafId)]
       else [GitCmd.addRemote "origin" (originUrl overleafId)]) := by
  unfold setup_git_remotes originCmds
  have hrem : ∀ (t : Remotes),
      (((t.map Prod.fst).filter (fun n => strStartsWith n "backup")).map
        GitCmd.removeRemote).filter (fun c => decide (c.remoteName = "origin")) = [] := by
    intro t
    apply List.filter_eq_nil_iff.mpr
    intro c hc
    obtain ⟨n, hn, rfl⟩ := List.mem_map.mp hc
    have hs := (List.mem_filter.mp hn).2
    simp [GitCmd.remoteName, startsWith_backup_ne_origin n hs]
  have hadd : ((backupAdds gitlabPaths).map
      (fun p => GitCmd.addRemote p.1 p.2)).filter
        (fun c => decide (c.remoteName = "origin")) = [] := by
    apply List.filter_eq_nil_iff.mpr
    intro c hc
    obtain ⟨p, hp, rfl⟩ := List.mem_map.mp hc
    simp [GitCmd.remoteName, backupAdds_ne_origin gitlabPaths p hp]
  cases h : containsName s "origin" <;>
    simp only [h, Bool.false_eq_true, if_false, if_true] <;>
    rw [List.filter_append, List.filter_append, hrem, hadd, List.append_nil,
      List.append_nil] <;>
    rfl

/-- The backup loop of the operations.py variant appends no origin-targeted
command to the trace. -/
theorem Operations.fold_originCmds (s : Remotes)
    (l : List (Nat × String)) (acc : List GitCmd × Remotes) :
    (l.foldl
      (fun acc ip =>
        let nm := backupName ip.1
        let url := backupUrl ip.2
        if containsName s nm then
          if lookupName s nm ≠ some url then
            (acc.1 ++ [GitCmd.setUrl nm url], setUrlFn acc.2 nm url)
          else acc
        else
          (acc.1 ++ [GitCmd.addRemote nm url], addFn acc.2 nm url))
      acc).1.filter (fun c => decide (c.remoteName = "origin"))
    = acc.1.filter (fun c => decide (c.remoteName = "origin")) := by
  induction l generalizing acc with
  | nil => rfl
  | cons ip l ih =>
    rw [List.foldl_cons, ih]
    have hname : backupName ip.1 ≠ "origin" := backupName_ne_origin ip.1
    by_cases h1 : containsName s (backupName ip.1) = true
    · by_cases h2 : lookupName s (backupName ip.1) ≠ some (backupUrl ip.2)
      · rw [if_pos h1, if_pos h2]
        rw [List.filter_append]
        simp [GitCmd.remoteName, hname]
      · rw [if_pos h1, if_neg h2]
    · rw [if_neg h1]
      rw [List.filter_append]
      simp [GitCmd.remoteName, hname]

/-- The origin-targeted commands of the operations.py reconciler trace:
none on a URL match, one set-url on a mismatch, one add when absent. -/
theorem Operations.setup_originCmds (overleafId : String)
    (gitlabPaths : List String) (s : Remotes) :
    originCmds (Operations.setup_git_remotes overleafId gitlabPaths s).1 =
      (if containsName s "origin" then
        (if lookupName s "origin" ≠ some (originUrl overleafId) then
          [GitCmd.setUrl "origin" (originUrl overleafId)]
        else [])
       else [GitCmd.addRemote "origin" (originUrl overleafId)]) := by
  unfold Operations.setup_git_remotes originCmds
  rw [Operations.fold_originCmds]
  by_cases h1 : containsName s "origin" = true
  · by_cases h2 : lookupName s "origin" ≠ some (originUrl overleafId)
    · rw [if_pos h1, if_pos h2, if_pos h1, if_pos h2]
      rfl
    · rw [if_pos h1, if_neg h2, if_pos h1, if_neg h2]
      rfl
  · rw [if_neg h1, if_neg h1]
    rfl

end Overleaf2Gitlab

namespace Overleaf2Gitlab

/-- C5 counterexample: with origin already present and carrying exactly the
expected URL, the canonical reconciler of backup.py still issues a set-url
command on origin, so reconciliation is not a no-op in that case. -/
theorem C5_counterexample :
    GitCmd.setUrl "origin" (originUrl "abc") ∈
      (setup_git_remotes "abc" ["gl/a/r.git"] [("origin", originUrl "abc")]).1 := by
  decide

/-- C5 amended: the claimed behaviour (no-op on a matching origin URL,
set-url only on a mismatch, add only on absence) holds of the
backup/operations.py reconciler variant; the canonical backup.py reconciler
issues a set-url on origin whenever origin is present, even when its URL
already equals the expected one, and an add exactly when origin is absent. -/
theorem C5_origin_reconciliation (overleafId : String) (gitlabPaths : List String)
    (s : Remotes) :
    (containsName s "origin" = true →
      lookupName s "origin" = some (originUrl overleafId) →
      originCmds (Operations.setup_git_remotes overleafId gitlabPaths s).1 = [] ∧
      originCmds (setup_git_remotes overleafId gitlabPaths s).1
        = [GitCmd.setUrl "origin" (originUrl overleafId)]) ∧
    (containsName s "origin" = true →
      lookupName s "origin" ≠ some (originUrl overleafId) →
      originCmds (Operations.setup_git_remotes overleafId gitlabPaths s).1
        = [GitCmd.setUrl "origin" (originUrl overleafId)] ∧
      originCmds (setup_git_remotes overleafId gitlabPaths s).1
        = [GitCmd.setUrl "origin" (originUrl overleafId)]) ∧
    (containsName s "origin" = false →
      originCmds (Operations.setup_git_remotes overleafId gitlabPaths s).1
        = [GitCmd.addRemote "origin" (originUrl overleafId)] ∧
      originCmds (setup_git_remotes overleafId gitlabPaths s).1
        = [GitCmd.addRemote "origin" (originUrl overleafId)]) := by
  refine ⟨fun h1 h2 => ⟨?_, ?_⟩, fun h1 h2 => ⟨?_, ?_⟩, fun h1 => ⟨?_, ?_⟩⟩
  · rw [Operations.setup_originCmds, if_pos h1, if_neg (by simp [h2])]
  · rw [originCmds_setup, if_pos h1]
  · rw [Operations.setup_originCmds, if_pos h1, if_pos h2]
  · rw [originCmds_setup, if_pos h1]
  · rw [Operations.setup_originCmds, if_neg (by simp [h1])]
  · rw [originCmds_setup, if_neg (by simp [h1])]

/-- Witness for the amended C5: a concrete state where origin is present with
the expected URL; the operations.py variant issues no origin command while
the canonical variant issues the redundant set-url. -/
theorem C5_witness :
    originCmds (Operations.setup_git_remotes "abc" ["gl/a/r.git"]
        [("origin", originUrl "abc")]).1 = [] ∧
    originCmds (setup_git_remotes "abc" ["gl/a/r.git"]
        [("origin", originUrl "abc")]).1
      = [GitCmd.setUrl "origin" (originUrl "abc")] :=
  (C5_origin_reconciliation "abc" ["gl/a/r.git"] [("origin", originUrl "abc")]).1
    (by decide) (by decide)

end Overleaf2Gitlab

namespace Overleaf2Gitlab

/-- Lookup under a different name is unaffected by set-url. -/
theorem lookupName_setUrlFn_ne (d : Remotes) (k v n : String) (h : k ≠ n) :
    lookupName (setUrlFn d k v) n = lookupName d n := by
  induction d with
  | nil => rfl
  | cons p d ih =>
    unfold setUrlFn at ih ⊢
    simp only [List.map_cons]
    by_cases hp : p.1 = k
    · rw [if_pos hp]
      unfold lookupName
      rw [if_neg h, if_neg (by rw [hp]; exact h)]
      exact ih
    · rw [if_neg hp]
      unfold lookupName
      by_cases hn : p.1 = n
      · rw [if_pos hn, if_pos hn]
      · rw [if_neg hn, if_neg hn]
        exact ih

/-- Lookup under a different name is unaffected by dict insertion. -/
theorem lookupName_dictInsert_ne (d : Remotes) (k v n : String) (h : k ≠ n) :
    lookupName (dictInsert d k v) n = lookupName d n := by
  unfold dictInsert
  by_cases hc : containsName d k = true
  · rw [if_pos hc]
    exact lookupName_setUrlFn_ne d k v n h
  · rw [if_neg hc]
    unfold addFn
    induction d with
    | nil =>
      rw [List.nil_append]
      unfold lookupName
      rw [if_neg h]
      rfl
    | cons p d ih =>
      rw [List.cons_append]
      unfold lookupName
      by_cases hn : p.1 = n
      · rw [if_pos hn, if_pos hn]
      · rw [if_neg hn, if_neg hn]
        exact ih (by
          intro hcc
          apply hc
          unfold containsName at hcc ⊢
          rw [List.any_cons, hcc, Bool.or_true])

/-- A name whose URL resolution fails never enters the inspection loop
accumulator. -/
theorem get_all_git_remotes_aux (resolve : String → Option String) (n : String)
    (h : resolve n = none) (remoteNames : List String) (acc : Remotes)
    (hacc : lookupName acc n = none) :
    lookupName (remoteNames.foldl
      (fun remotes remoteName =>
        if remoteName ≠ "" then
          match resolve remoteName with
          | some url => dictInsert remotes remoteName url
          | none => remotes
        else remotes) acc) n = none := by
  induction remoteNames generalizing acc with
  | nil => exact hacc
  | cons m remoteNames ih =>
    rw [List.foldl_cons]
    apply ih
    by_cases hm : m ≠ ""
    · rw [if_pos hm]
      cases hr : resolve m with
      | none => exact hacc
      | some url =>
        have hmn : m ≠ n := by
          intro he
          rw [he, h] at hr
          cases hr
        rw [lookupName_dictInsert_ne acc m url n hmn]
        exact hacc
    · rw [if_neg hm]
      exact hacc

/-- C8: the Remote Inspector never reports an error: a failing listing
command yields the empty mapping, and a remote name whose URL resolution
fails is silently absent from the returned mapping. -/
theorem C8_inspector_tolerance (listing : Option (List String))
    (resolve : String → Option String) (n : String) :
    get_all_git_remotes none resolve = [] ∧
    (resolve n = none →
      lookupName (get_all_git_remotes listing resolve) n = none) := by
  constructor
  · rfl
  · intro h
    cases listing with
    | none => rfl
    | some remoteNames =>
      exact get_all_git_remotes_aux resolve n h remoteNames [] rfl

/-- Witness for C8: a two-name listing where resolution of the second name
fails; the returned mapping drops it, and a failed listing returns empty. -/
theorem C8_witness :
    get_all_git_remotes none (fun s => if s = "a" then some "u" else none) = [] ∧
    lookupName (get_all_git_remotes (some ["a", "", "b"])
      (fun s => if s = "a" then some "u" else none)) "b" = none :=
  ⟨(C8_inspector_tolerance none (fun s => if s = "a" then some "u" else none) "b").1,
    (C8_inspector_tolerance (some ["a", "", "b"])
      (fun s => if s = "a" then some "u" else none) "b").2 rfl⟩

/-- C9: the claim that no exception crosses the core boundary fails on the
code: the provisioning subprocesses of mk_cache_overleaf_git_dir run before
the try block of setup_git_remotes with check=True, so a failing git init
raises through setup_git_remotes and backup_all_projects, and a bulk run
aborts without processing the remaining projects; the same second project
processed alone succeeds. -/
theorem C9_provisioning_exception_escapes :
    setup_git_remotes_run "p1" ["a/b.git"]
      ⟨false, false, true, true, [], true, true, false, true, none, [], [], false, true⟩
      = Except.error () ∧
    backup_all_projects_run
      [("p1", ["a/b.git"],
        ⟨false, false, true, true, [], true, true, false, true, none, [], [], false, true⟩),
       ("p2", ["c/d.git"],
        ⟨true, true, true, true, [("origin", originUrl "p2")],
          true, true, false, true, some "main", [], [], false, true⟩)]
      = Except.error () ∧
    backup_all_projects_run
      [("p2", ["c/d.git"],
        ⟨true, true, true, true, [("origin", originUrl "p2")],
          true, true, false, true, some "main", [], [], false, true⟩)]
      = Except.ok (1, 1) :=
  ⟨rfl, rfl, rfl⟩

end Overleaf2Gitlab
